import Mathlib

/-
Verification of the quant-cpp pricing core: the closed-form Black-Scholes
pricer with Greeks, the bisection implied-volatility solver, and the
Monte Carlo simulator.  Real numbers model the C++ doubles; the decimal
constants kSqrtTwo and kInvSqrtTwoPi of the source are modelled by the
exact values they approximate.
-/

open MeasureTheory Real Set

/-- Description of one option contract, mirroring struct OptionInput of
quant/black_scholes.hpp: spot, strike, rate, volatility, time to maturity,
dividend yield and a call/put flag. -/
structure OptionInput where
  spot : ℝ
  strike : ℝ
  rate : ℝ
  volatility : ℝ
  time_to_maturity : ℝ
  dividend_yield : ℝ
  is_call : Bool

/-- Result record of the pricer, mirroring struct OptionGreeks. -/
structure OptionGreeks where
  price : ℝ
  delta : ℝ
  gamma : ℝ
  vega : ℝ
  theta : ℝ
  rho : ℝ

/-- Result record of the solver, mirroring struct ImpliedVolatilityResult. -/
structure ImpliedVolatilityResult where
  implied_volatility : ℝ
  converged : Bool
  iterations : ℕ

/-- Result record of the simulator, mirroring struct MonteCarloResult. -/
structure MonteCarloResult where
  price : ℝ
  standard_error : ℝ

/-- The complementary error function, the mathematical function computed by
std::erfc used in black_scholes.cpp. -/
noncomputable def erfc (x : ℝ) : ℝ :=
  2 / Real.sqrt π * ∫ t in Ioi x, Real.exp (-t ^ 2)

/-- Standard normal density, mirroring normal_pdf of black_scholes.cpp:
kInvSqrtTwoPi * exp(-0.5 * x * x), with kInvSqrtTwoPi the constant
1/sqrt(2*pi). -/
noncomputable def normal_pdf (x : ℝ) : ℝ :=
  (Real.sqrt (2 * π))⁻¹ * Real.exp (-0.5 * x * x)

/-- Standard normal CDF, mirroring normal_cdf of black_scholes.cpp:
0.5 * erfc(-x / kSqrtTwo), with kSqrtTwo the constant sqrt 2. -/
noncomputable def normal_cdf (x : ℝ) : ℝ :=
  0.5 * erfc (-x / Real.sqrt 2)

/-- The closed-form pricer, mirroring black_scholes of black_scholes.cpp
line for line: inputs are floored at eps = 1e-9, d1 and d2 are formed, and
the call or put branch fills price, delta, theta, rho, while gamma and vega
are computed after the branch. -/
noncomputable def black_scholes (o : OptionInput) : OptionGreeks :=
  let eps : ℝ := 1e-9
  let S := max o.spot eps
  let K := max o.strike eps
  let r := o.rate
  let q := o.dividend_yield
  let sigma := max o.volatility eps
  let T := max o.time_to_maturity eps
  let sqrtT := Real.sqrt T
  let sigmaSqT := sigma * sqrtT
  let forward := S * Real.exp (-q * T)
  let discount := Real.exp (-r * T)
  let logTerm := Real.log (S / K)
  let d1 := (logTerm + (r - q + 0.5 * sigma * sigma) * T) / sigmaSqT
  let d2 := d1 - sigmaSqT
  let pdfD1 := normal_pdf d1
  let gamma := Real.exp (-q * T) * pdfD1 / (S * sigmaSqT)
  let vega := S * Real.exp (-q * T) * pdfD1 * sqrtT
  if o.is_call then
    { price := forward * normal_cdf d1 - K * discount * normal_cdf d2
      delta := Real.exp (-q * T) * normal_cdf d1
      gamma := gamma
      vega := vega
      theta := -(S * Real.exp (-q * T) * pdfD1 * sigma) / (2 * sqrtT)
        - r * K * discount * normal_cdf d2
        + q * S * Real.exp (-q * T) * normal_cdf d1
      rho := K * T * discount * normal_cdf d2 }
  else
    { price := K * discount * normal_cdf (-d2) - forward * normal_cdf (-d1)
      delta := Real.exp (-q * T) * (normal_cdf d1 - 1)
      gamma := gamma
      vega := vega
      theta := -(S * Real.exp (-q * T) * pdfD1 * sigma) / (2 * sqrtT)
        + r * K * discount * normal_cdf (-d2)
        - q * S * Real.exp (-q * T) * normal_cdf (-d1)
      rho := -(K * T * discount * normal_cdf (-d2)) }

/-- The bisection loop of implied_volatility in black_scholes.cpp, written
as structural recursion on the remaining iteration budget.  The state
carries the 0-based index of the next iteration, the bracket, and the last
computed mid (initially 0, as in the source).  When the budget is exhausted
the source for-loop leaves iteration equal to max_iterations and returns
iteration + 1. -/
noncomputable def iv_loop (f : ℝ → ℝ) (target tol : ℝ) :
    ℕ → ℕ → ℝ → ℝ → ℝ → ImpliedVolatilityResult
  | 0, iter, _, _, mid => ⟨mid, false, iter + 1⟩
  | fuel + 1, iter, low, high, _ =>
    let mid := 0.5 * (low + high)
    let diff := f mid - target
    if |diff| < tol then ⟨mid, true, iter + 1⟩
    else
      let low2 := if diff > 0 then low else mid
      let high2 := if diff > 0 then mid else high
      if |high2 - low2| < tol then ⟨mid, true, iter + 1⟩
      else iv_loop f target tol fuel (iter + 1) low2 high2 mid

/-- The implied-volatility solver, mirroring implied_volatility of
black_scholes.cpp: bisection on volatility against the black_scholes
price. -/
noncomputable def implied_volatility (o : OptionInput) (target_price : ℝ)
    (lower_bound upper_bound tolerance : ℝ) (max_iterations : ℕ) :
    ImpliedVolatilityResult :=
  iv_loop (fun v => (black_scholes { o with volatility := v }).price)
    target_price tolerance max_iterations 0 lower_bound upper_bound 0

/-- The payoff sample list built by the simulation loop of
monte_carlo_price in monte_carlo.cpp.  The argument normals models the
stream of standard-normal draws that std::mt19937 seeded with the given
seed produces through std::normal_distribution; the i-th path consumes the
i-th draw. -/
noncomputable def mc_payoffs (o : OptionInput) (paths : ℕ) (normals : ℕ → ℝ) :
    List ℝ :=
  let drift := (o.rate - o.dividend_yield - 0.5 * o.volatility * o.volatility)
    * o.time_to_maturity
  let diffusion := o.volatility * Real.sqrt o.time_to_maturity
  (List.range paths).map fun i =>
    let terminal := o.spot * Real.exp (drift + diffusion * normals i)
    if o.is_call then max (terminal - o.strike) 0
    else max (o.strike - terminal) 0

/-- The Monte Carlo pricer, mirroring monte_carlo_price of monte_carlo.cpp:
zero paths short-circuits to (0, 0); otherwise the mean payoff, the
population variance (divisor = paths), the standard error, and the
discounted results are formed exactly as in the source.  The normals
argument stands for the seeded generator draws, as in mc_payoffs. -/
noncomputable def monte_carlo_price (o : OptionInput) (paths : ℕ)
    (normals : ℕ → ℝ) : MonteCarloResult :=
  if paths = 0 then ⟨0, 0⟩
  else
    let discount := Real.exp (-o.rate * o.time_to_maturity)
    let payoffs := mc_payoffs o paths normals
    let mean_payoff := payoffs.sum / (paths : ℝ)
    let variance :=
      (payoffs.map fun p => (p - mean_payoff) * (p - mean_payoff)).sum
        / (paths : ℝ)
    let stddev := Real.sqrt variance
    let standard_error := stddev / Real.sqrt (paths : ℝ)
    ⟨discount * mean_payoff, discount * standard_error⟩

/-- Reference bisection loop written from the words of spec section 4.2:
mid = (low+high)/2, stop converged when the price difference is inside
tolerance, otherwise narrow (high = mid when priced too high, low = mid
when too low), stop converged when the bracket width is inside tolerance,
and return the last mid with converged = false only when the iteration
budget is exhausted.  Its iterations field is the number of iterations
actually executed (1-based), as the spec describes. -/
noncomputable def iv_spec_loop (f : ℝ → ℝ) (target tol : ℝ) :
    ℕ → ℕ → ℝ → ℝ → ℝ → ImpliedVolatilityResult
  | 0, iter, _, _, mid => ⟨mid, false, iter⟩
  | fuel + 1, iter, low, high, _ =>
    let mid := (low + high) / 2
    let diff := f mid - target
    if |diff| < tol then ⟨mid, true, iter + 1⟩
    else
      let low2 := if diff > 0 then low else mid
      let high2 := if diff > 0 then mid else high
      if |high2 - low2| < tol then ⟨mid, true, iter + 1⟩
      else iv_spec_loop f target tol fuel (iter + 1) low2 high2 mid

/-- Reference solver from spec section 4.2, driving iv_spec_loop with the
black_scholes price at the overridden volatility. -/
noncomputable def iv_spec (o : OptionInput) (target_price : ℝ)
    (lower_bound upper_bound tolerance : ℝ) (max_iterations : ℕ) :
    ImpliedVolatilityResult :=
  iv_spec_loop (fun v => (black_scholes { o with volatility := v }).price)
    target_price tolerance max_iterations 0 lower_bound upper_bound 0

/-- Mean of a sample list, from the words of spec section 4.3 step 4. -/
noncomputable def spec_mean (l : List ℝ) : ℝ := l.sum / l.length

/-- Population variance of a sample list, from the words of spec section
4.3 step 5: mean of squared deviations from the mean, divisor = length. -/
noncomputable def spec_pop_variance (l : List ℝ) : ℝ :=
  ((l.map fun x => (x - spec_mean l) ^ 2).sum) / l.length

/-- An OptionInput is clamped when every field floored inside black_scholes
already lies at or above the floor eps = 1e-9, so the clamping is the
identity on it.  Spec section 3 requires callers to pass such inputs. -/
def Clamped (o : OptionInput) : Prop :=
  1e-9 ≤ o.spot ∧ 1e-9 ≤ o.strike ∧ 1e-9 ≤ o.volatility ∧
    1e-9 ≤ o.time_to_maturity

/-- The standard normal CDF as the spec and claim C3 word it:
Phi(x) = 0.5 * erfc(-x / sqrt 2). -/
noncomputable def spec_Phi (x : ℝ) : ℝ := 0.5 * erfc (-x / Real.sqrt 2)

/-- The standard normal density as the spec words it:
phi(x) = exp(-x^2/2) / sqrt(2*pi). -/
noncomputable def spec_phi (x : ℝ) : ℝ :=
  Real.exp (-x ^ 2 / 2) / Real.sqrt (2 * π)

/-- d1 as the spec words it. -/
noncomputable def spec_d1 (S K r q sigma T : ℝ) : ℝ :=
  (Real.log (S / K) + (r - q + 0.5 * sigma ^ 2) * T) / (sigma * Real.sqrt T)

/-- d2 as the spec words it. -/
noncomputable def spec_d2 (S K r q sigma T : ℝ) : ℝ :=
  spec_d1 S K r q sigma T - sigma * Real.sqrt T

/-- Call price as the spec and claim C3 word it. -/
noncomputable def spec_call_price (S K r q sigma T : ℝ) : ℝ :=
  S * Real.exp (-q * T) * spec_Phi (spec_d1 S K r q sigma T)
    - K * Real.exp (-r * T) * spec_Phi (spec_d2 S K r q sigma T)

/-- Call delta as the spec and claim C3 word it. -/
noncomputable def spec_call_delta (S K r q sigma T : ℝ) : ℝ :=
  Real.exp (-q * T) * spec_Phi (spec_d1 S K r q sigma T)

/-- Call theta as the spec and claim C3 word it. -/
noncomputable def spec_call_theta (S K r q sigma T : ℝ) : ℝ :=
  -(S * Real.exp (-q * T) * spec_phi (spec_d1 S K r q sigma T) * sigma)
      / (2 * Real.sqrt T)
    - r * K * Real.exp (-r * T) * spec_Phi (spec_d2 S K r q sigma T)
    + q * S * Real.exp (-q * T) * spec_Phi (spec_d1 S K r q sigma T)

/-- Call rho as the spec and claim C3 word it. -/
noncomputable def spec_call_rho (S K r q sigma T : ℝ) : ℝ :=
  K * T * Real.exp (-r * T) * spec_Phi (spec_d2 S K r q sigma T)

/-- Gamma as the spec and claim C7 word it, branch-independent. -/
noncomputable def spec_gamma (S K r q sigma T : ℝ) : ℝ :=
  Real.exp (-q * T) * spec_phi (spec_d1 S K r q sigma T)
    / (S * sigma * Real.sqrt T)

/-- Vega as the spec and claim C7 word it, branch-independent. -/
noncomputable def spec_vega (S K r q sigma T : ℝ) : ℝ :=
  S * Real.exp (-q * T) * spec_phi (spec_d1 S K r q sigma T) * Real.sqrt T

/-- A concrete option used to instantiate hypotheses of the universally
quantified theorems: the reference call of the repository test suite. -/
def opt1 : OptionInput :=
  { spot := 100, strike := 100, rate := 0.01, volatility := 0.2,
    time_to_maturity := 1, dividend_yield := 0, is_call := true }

/-! ## Structural lemmas about the bisection loop -/

/-- The source loop and the spec-side loop agree on the returned volatility
and the converged flag, and the source iteration report exceeds the
spec-side executed count by one exactly when the budget was exhausted. -/
lemma iv_loop_eq_spec (f : ℝ → ℝ) (target tol : ℝ) :
    ∀ fuel iter low high mid,
      (iv_loop f target tol fuel iter low high mid).implied_volatility
          = (iv_spec_loop f target tol fuel iter low high mid).implied_volatility ∧
        (iv_loop f target tol fuel iter low high mid).converged
          = (iv_spec_loop f target tol fuel iter low high mid).converged ∧
        (iv_loop f target tol fuel iter low high mid).iterations
          = (iv_spec_loop f target tol fuel iter low high mid).iterations
            + (if (iv_spec_loop f target tol fuel iter low high mid).converged
                then 0 else 1) := by
  intro fuel
  induction fuel with
  | zero =>
    intro iter low high mid
    simp [iv_loop, iv_spec_loop]
  | succ n ih =>
    intro iter low high mid
    have hmid : (low + high) / 2 = 0.5 * (low + high) := by ring
    simp only [iv_loop, iv_spec_loop, hmid]
    split_ifs <;> simp_all

/-- When the spec-side loop reports non-convergence, it executed its whole
budget. -/
lemma iv_spec_loop_not_conv (f : ℝ → ℝ) (target tol : ℝ) :
    ∀ fuel iter low high mid,
      (iv_spec_loop f target tol fuel iter low high mid).converged = false →
      (iv_spec_loop f target tol fuel iter low high mid).iterations
        = iter + fuel := by
  intro fuel
  induction fuel with
  | zero =>
    intro iter low high mid _
    simp [iv_spec_loop]
  | succ n ih =>
    intro iter low high mid
    simp only [iv_spec_loop]
    split_ifs <;> intro h <;>
      first
        | simp at h
        | (rw [ih _ _ _ _ h]; omega)

/-- The iteration report of the source loop always exceeds the starting
index. -/
lemma iv_loop_iterations_ge (f : ℝ → ℝ) (target tol : ℝ) :
    ∀ fuel iter low high mid,
      iter + 1 ≤ (iv_loop f target tol fuel iter low high mid).iterations := by
  intro fuel
  induction fuel with
  | zero =>
    intro iter low high mid
    simp [iv_loop]
  | succ n ih =>
    intro iter low high mid
    simp only [iv_loop]
    split_ifs
    · simp
    · simp
    · exact le_trans (by omega) (ih (iter + 1) _ _ _)
    · simp
    · exact le_trans (by omega) (ih (iter + 1) _ _ _)

/-- On exhaustion the source loop started at index 0 reports fuel + 1. -/
lemma iv_loop_iterations_exhausted (f : ℝ → ℝ) (target tol : ℝ) (m : ℕ)
    (low high : ℝ)
    (h : (iv_spec_loop f target tol m 0 low high 0).converged = false) :
    (iv_loop f target tol m 0 low high 0).iterations = m + 1 := by
  have h1 := (iv_loop_eq_spec f target tol m 0 low high 0).2.2
  have h2 := iv_spec_loop_not_conv f target tol m 0 low high 0 h
  rw [h1, h2, h]
  simp

/-- From a state whose mid lies inside the bracket, the source loop
returns a volatility inside the bracket. -/
lemma iv_loop_mem (f : ℝ → ℝ) (target tol : ℝ) :
    ∀ fuel iter low high mid, low ≤ mid → mid ≤ high →
      (iv_loop f target tol fuel iter low high mid).implied_volatility
        ∈ Icc low high := by
  intro fuel
  induction fuel with
  | zero =>
    intro iter low high mid h1 h2
    exact ⟨h1, h2⟩
  | succ n ih =>
    intro iter low high mid h1 h2
    have hm1 : low ≤ 0.5 * (low + high) := by linarith
    have hm2 : 0.5 * (low + high) ≤ high := by linarith
    simp only [iv_loop]
    split_ifs
    · exact ⟨hm1, hm2⟩
    · exact ⟨hm1, hm2⟩
    · exact Icc_subset_Icc le_rfl hm2 (ih (iter + 1) low _ _ hm1 le_rfl)
    · exact ⟨hm1, hm2⟩
    · exact Icc_subset_Icc hm1 le_rfl (ih (iter + 1) _ high _ le_rfl hm2)

/-- With at least one iteration of budget and an ordered bracket, the
source loop returns a volatility inside the bracket, whatever the initial
mid. -/
lemma iv_loop_mem_of_pos (f : ℝ → ℝ) (target tol : ℝ) (fuel : ℕ)
    (hf : 1 ≤ fuel) (iter : ℕ) (low high mid : ℝ) (hlh : low ≤ high) :
    (iv_loop f target tol fuel iter low high mid).implied_volatility
      ∈ Icc low high := by
  obtain ⟨n, rfl⟩ : ∃ n, fuel = n + 1 := ⟨fuel - 1, by omega⟩
  have hm1 : low ≤ 0.5 * (low + high) := by linarith
  have hm2 : 0.5 * (low + high) ≤ high := by linarith
  simp only [iv_loop]
  split_ifs
  · exact ⟨hm1, hm2⟩
  · exact ⟨hm1, hm2⟩
  · exact Icc_subset_Icc le_rfl hm2
      (iv_loop_mem f target tol n (iter + 1) low _ _ hm1 le_rfl)
  · exact ⟨hm1, hm2⟩
  · exact Icc_subset_Icc hm1 le_rfl
      (iv_loop_mem f target tol n (iter + 1) _ high _ le_rfl hm2)

/-! ## Monte Carlo helper lemmas -/

/-- The payoff list has one entry per path. -/
lemma mc_payoffs_length (o : OptionInput) (paths : ℕ) (normals : ℕ → ℝ) :
    (mc_payoffs o paths normals).length = paths := by
  simp [mc_payoffs]

/-- Every simulated payoff is non-negative. -/
lemma mc_payoffs_nonneg (o : OptionInput) (paths : ℕ) (normals : ℕ → ℝ) :
    ∀ p ∈ mc_payoffs o paths normals, 0 ≤ p := by
  intro p hp
  simp only [mc_payoffs, List.mem_map] at hp
  obtain ⟨i, _, rfl⟩ := hp
  split_ifs <;> exact le_max_right _ _

/-! ## Claim theorems: solver structure and Monte Carlo structure -/

/-- C1: for every OptionSpec, target price, bounds, tolerance and
max_iterations, the implied_volatility solver runs bisection exactly as the
spec describes it: the returned volatility and converged flag coincide with
those of the loop written from the words of spec section 4.2 (mid =
(low+high)/2 each iteration, converged on price difference inside
tolerance, narrowing high = mid when priced too high and low = mid
otherwise, converged on bracket width inside tolerance, and last mid with
converged = false exactly when the budget is exhausted). -/
theorem c1_bisection_refines_spec (o : OptionInput) (target lb ub tol : ℝ)
    (m : ℕ) :
    (implied_volatility o target lb ub tol m).implied_volatility
        = (iv_spec o target lb ub tol m).implied_volatility ∧
      (implied_volatility o target lb ub tol m).converged
        = (iv_spec o target lb ub tol m).converged := by
  have h := iv_loop_eq_spec
    (fun v => (black_scholes { o with volatility := v }).price)
    target tol m 0 lb ub 0
  exact ⟨h.1, h.2.1⟩

/-- C2 (amended): the iterations field reported by implied_volatility is
the 1-based count of iterations actually executed when a stopping rule
fires, but when max_iterations is exhausted without convergence it is
max_iterations + 1, not max_iterations; it is always at least 1.  The
executed count is the iterations field of the spec-side loop iv_spec. -/
theorem c2_iteration_count_amended (o : OptionInput) (target lb ub tol : ℝ)
    (m : ℕ) :
    (implied_volatility o target lb ub tol m).iterations
        = (iv_spec o target lb ub tol m).iterations
          + (if (iv_spec o target lb ub tol m).converged then 0 else 1) ∧
      1 ≤ (implied_volatility o target lb ub tol m).iterations ∧
      ((iv_spec o target lb ub tol m).converged = false →
        (implied_volatility o target lb ub tol m).iterations = m + 1) := by
  exact ⟨(iv_loop_eq_spec _ target tol m 0 lb ub 0).2.2,
    iv_loop_iterations_ge _ target tol m 0 lb ub 0,
    fun h => iv_loop_iterations_exhausted _ target tol m lb ub h⟩

/-- C10: with an ordered search interval and at least one iteration of
budget, the volatility returned by implied_volatility lies in the closed
interval of the bounds; moreover from any loop state whose bracket and mid
sit inside the bounds, the loop result stays inside the bounds. -/
theorem c10_bracket_containment (o : OptionInput) (target lb ub tol : ℝ)
    (m : ℕ) (hlu : lb ≤ ub) (hm : 1 ≤ m) :
    (implied_volatility o target lb ub tol m).implied_volatility
        ∈ Icc lb ub ∧
      ∀ fuel iter low high mid, lb ≤ low → low ≤ mid → mid ≤ high →
        high ≤ ub →
        (iv_loop (fun v => (black_scholes { o with volatility := v }).price)
            target tol fuel iter low high mid).implied_volatility
          ∈ Icc lb ub := by
  constructor
  · exact iv_loop_mem_of_pos _ target tol m hm 0 lb ub 0 hlu
  · intro fuel iter low high mid h1 h2 h3 h4
    exact Icc_subset_Icc h1 h4
      (iv_loop_mem _ target tol fuel iter low high mid h2 h3)

/-- Witness for C10 at a concrete input: bounds 0 and 1 with budget 3. -/
theorem c10_bracket_containment_witness :
    (0 : ℝ) ≤ 1 ∧ 1 ≤ 3 ∧
      (implied_volatility opt1 5 0 1 (1 / 1000000) 3).implied_volatility
        ∈ Icc (0 : ℝ) 1 :=
  ⟨by norm_num, by norm_num,
    (c10_bracket_containment opt1 5 0 1 (1 / 1000000) 3 (by norm_num)
      (by norm_num)).1⟩

/-- C4: for at least one path, the Monte Carlo price is the discount
factor exp(-r T) times the mean payoff, and the standard error is the
square root of the population variance of the payoffs (divisor = path
count) divided by the square root of the path count, times the same
discount factor. -/
theorem c4_monte_carlo_estimates (o : OptionInput) (paths : ℕ)
    (normals : ℕ → ℝ) (h : 1 ≤ paths) :
    (monte_carlo_price o paths normals).price
        = Real.exp (-o.rate * o.time_to_maturity)
          * spec_mean (mc_payoffs o paths normals) ∧
      (monte_carlo_price o paths normals).standard_error
        = Real.sqrt (spec_pop_variance (mc_payoffs o paths normals))
            / Real.sqrt (paths : ℝ)
          * Real.exp (-o.rate * o.time_to_maturity) := by
  have hp : ¬paths = 0 := by omega
  have hmean : spec_mean (mc_payoffs o paths normals)
      = (mc_payoffs o paths normals).sum / (paths : ℝ) := by
    rw [spec_mean, mc_payoffs_length]
  have hsq : (fun x : ℝ =>
        (x - (mc_payoffs o paths normals).sum / (paths : ℝ)) ^ 2)
      = fun x : ℝ =>
        (x - (mc_payoffs o paths normals).sum / (paths : ℝ))
          * (x - (mc_payoffs o paths normals).sum / (paths : ℝ)) :=
    funext fun x => pow_two _
  have hvar : spec_pop_variance (mc_payoffs o paths normals)
      = ((mc_payoffs o paths normals).map fun p =>
            (p - (mc_payoffs o paths normals).sum / (paths : ℝ))
              * (p - (mc_payoffs o paths normals).sum / (paths : ℝ))).sum
          / (paths : ℝ) := by
    rw [spec_pop_variance, mc_payoffs_length, hmean, hsq]
  constructor
  · simp only [monte_carlo_price, hp, if_false]
    rw [hmean]
  · simp only [monte_carlo_price, hp, if_false]
    rw [hvar]
    ring

/-- Witness for C4 at one path with a zero draw. -/
theorem c4_monte_carlo_estimates_witness :
    1 ≤ 1 ∧
      ((monte_carlo_price opt1 1 fun _ => 0).price
          = Real.exp (-opt1.rate * opt1.time_to_maturity)
            * spec_mean (mc_payoffs opt1 1 fun _ => 0) ∧
        (monte_carlo_price opt1 1 fun _ => 0).standard_error
          = Real.sqrt (spec_pop_variance (mc_payoffs opt1 1 fun _ => 0))
              / Real.sqrt ((1 : ℕ) : ℝ)
            * Real.exp (-opt1.rate * opt1.time_to_maturity)) :=
  ⟨le_refl 1, c4_monte_carlo_estimates opt1 1 (fun _ => 0) (le_refl 1)⟩

/-- C5: a path count of exactly zero returns price 0 and standard error 0
as a normal result, for every option and every draw stream. -/
theorem c5_zero_paths (o : OptionInput) (normals : ℕ → ℝ) :
    monte_carlo_price o 0 normals = ⟨0, 0⟩ := by
  simp [monte_carlo_price]

/-- C9: both fields of the Monte Carlo result are non-negative, for every
option, every path count and every draw stream. -/
theorem c9_monte_carlo_nonneg (o : OptionInput) (paths : ℕ)
    (normals : ℕ → ℝ) :
    0 ≤ (monte_carlo_price o paths normals).price ∧
      0 ≤ (monte_carlo_price o paths normals).standard_error := by
  by_cases hp : paths = 0
  · subst hp
    simp [monte_carlo_price]
  · constructor
    · simp only [monte_carlo_price, hp, if_false]
      exact mul_nonneg (Real.exp_pos _).le
        (div_nonneg
          (List.sum_nonneg (mc_payoffs_nonneg o paths normals))
          (Nat.cast_nonneg _))
    · simp only [monte_carlo_price, hp, if_false]
      exact mul_nonneg (Real.exp_pos _).le
        (div_nonneg (Real.sqrt_nonneg _) (Real.sqrt_nonneg _))

/-! ## Analytic facts about erfc and the normal CDF -/

/-- The Gaussian integrand is integrable on the line. -/
lemma gauss_integrable : Integrable fun t : ℝ => Real.exp (-t ^ 2) := by
  have h : Integrable fun t : ℝ => Real.exp (-1 * t ^ 2) :=
    integrable_exp_neg_mul_sq one_pos
  simpa using h

/-- Value of the full Gaussian integral. -/
lemma gauss_integral_value : (∫ t : ℝ, Real.exp (-t ^ 2)) = Real.sqrt π := by
  have h := integral_gaussian 1
  simpa using h

/-- The square root of pi is positive. -/
lemma sqrt_pi_pos : 0 < Real.sqrt π := Real.sqrt_pos.mpr Real.pi_pos

/-- Tail Gaussian integrals are non-negative. -/
lemma gauss_Ioi_nonneg (x : ℝ) : 0 ≤ ∫ t in Ioi x, Real.exp (-t ^ 2) :=
  setIntegral_nonneg measurableSet_Ioi fun _ _ => (Real.exp_pos _).le

/-- Tail Gaussian integrals are at most the full integral. -/
lemma gauss_Ioi_le (x : ℝ) :
    (∫ t in Ioi x, Real.exp (-t ^ 2)) ≤ Real.sqrt π := by
  rw [← gauss_integral_value]
  exact setIntegral_le_integral gauss_integrable
    (Filter.Eventually.of_forall fun t => (Real.exp_pos _).le)

/-- erfc is non-negative. -/
lemma erfc_nonneg (x : ℝ) : 0 ≤ erfc x :=
  mul_nonneg (by positivity) (gauss_Ioi_nonneg x)

/-- erfc is at most 2. -/
lemma erfc_le_two (x : ℝ) : erfc x ≤ 2 := by
  have h1 := gauss_Ioi_le x
  have h2 : (0:ℝ) ≤ 2 / Real.sqrt π := by positivity
  calc erfc x ≤ 2 / Real.sqrt π * Real.sqrt π :=
        mul_le_mul_of_nonneg_left h1 h2
    _ = 2 := div_mul_cancel₀ 2 (ne_of_gt sqrt_pi_pos)

/-- Reflection of the Gaussian tail integral. -/
lemma gauss_Ioi_neg (x : ℝ) :
    (∫ t in Ioi (-x), Real.exp (-t ^ 2))
      = ∫ t in Iic x, Real.exp (-t ^ 2) := by
  have h := integral_comp_neg_Ioi (-x) fun t => Real.exp (-t ^ 2)
  simpa [neg_sq] using h

/-- The erfc reflection identity. -/
lemma erfc_add_neg (x : ℝ) : erfc x + erfc (-x) = 2 := by
  have hsplit : (∫ t in Iic x, Real.exp (-t ^ 2))
      + ∫ t in Ioi x, Real.exp (-t ^ 2) = Real.sqrt π := by
    rw [← gauss_integral_value]
    exact intervalIntegral.integral_Iic_add_Ioi gauss_integrable.integrableOn
      gauss_integrable.integrableOn
  unfold erfc
  rw [gauss_Ioi_neg, ← mul_add]
  have hsum : (∫ t in Ioi x, Real.exp (-t ^ 2))
      + ∫ t in Iic x, Real.exp (-t ^ 2) = Real.sqrt π := by linarith
  rw [hsum]
  exact div_mul_cancel₀ 2 (ne_of_gt sqrt_pi_pos)

/-- The normal CDF is non-negative. -/
lemma normal_cdf_nonneg (x : ℝ) : 0 ≤ normal_cdf x :=
  mul_nonneg (by norm_num) (erfc_nonneg _)

/-- The normal CDF is at most 1. -/
lemma normal_cdf_le_one (x : ℝ) : normal_cdf x ≤ 1 := by
  have h := erfc_le_two (-x / Real.sqrt 2)
  unfold normal_cdf
  linarith

/-- The normal CDF reflection identity. -/
lemma normal_cdf_add_neg (x : ℝ) : normal_cdf x + normal_cdf (-x) = 1 := by
  unfold normal_cdf
  have hx : -(-x) / Real.sqrt 2 = -(-x / Real.sqrt 2) := by ring
  rw [hx]
  have h := erfc_add_neg (-x / Real.sqrt 2)
  linarith

/-! ## Unfolding black_scholes on clamped inputs -/

/-- The spec-worded CDF coincides with the normal_cdf of the source. -/
lemma spec_Phi_eq : spec_Phi = normal_cdf := funext fun _ => rfl

/-- The source density equals the spec-worded density. -/
lemma normal_pdf_eq_spec_phi (x : ℝ) : normal_pdf x = spec_phi x := by
  unfold normal_pdf spec_phi
  rw [show -0.5 * x * x = -x ^ 2 / 2 by ring]
  ring

/-- All six fields of black_scholes on a clamped call, in terms of the
spec-worded formulas. -/
lemma bs_call_fields (o : OptionInput) (h : Clamped o)
    (hc : o.is_call = true) :
    (black_scholes o).price = spec_call_price o.spot o.strike o.rate
        o.dividend_yield o.volatility o.time_to_maturity ∧
      (black_scholes o).delta = spec_call_delta o.spot o.strike o.rate
        o.dividend_yield o.volatility o.time_to_maturity ∧
      (black_scholes o).gamma = spec_gamma o.spot o.strike o.rate
        o.dividend_yield o.volatility o.time_to_maturity ∧
      (black_scholes o).vega = spec_vega o.spot o.strike o.rate
        o.dividend_yield o.volatility o.time_to_maturity ∧
      (black_scholes o).theta = spec_call_theta o.spot o.strike o.rate
        o.dividend_yield o.volatility o.time_to_maturity ∧
      (black_scholes o).rho = spec_call_rho o.spot o.strike o.rate
        o.dividend_yield o.volatility o.time_to_maturity := by
  obtain ⟨h1, h2, h3, h4⟩ := h
  have hd1 : (Real.log (o.spot / o.strike)
        + (o.rate - o.dividend_yield
            + 0.5 * o.volatility * o.volatility) * o.time_to_maturity)
        / (o.volatility * Real.sqrt o.time_to_maturity)
      = spec_d1 o.spot o.strike o.rate o.dividend_yield o.volatility
          o.time_to_maturity := by
    unfold spec_d1
    ring
  have hd2 : spec_d1 o.spot o.strike o.rate o.dividend_yield o.volatility
        o.time_to_maturity - o.volatility * Real.sqrt o.time_to_maturity
      = spec_d2 o.spot o.strike o.rate o.dividend_yield o.volatility
          o.time_to_maturity := rfl
  simp only [black_scholes, max_eq_left h1, max_eq_left h2, max_eq_left h3,
    max_eq_left h4, hc, if_true, hd1, hd2]
  unfold spec_call_price spec_call_delta spec_gamma spec_vega spec_call_theta
    spec_call_rho
  rw [spec_Phi_eq]
  refine ⟨?_, ?_, ?_, ?_, ?_, ?_⟩ <;> simp only [normal_pdf_eq_spec_phi] <;>
    try ring

/-- Price, gamma and vega of black_scholes on a clamped put. -/
lemma bs_put_fields (o : OptionInput) (h : Clamped o)
    (hc : o.is_call = false) :
    (black_scholes o).price
        = o.strike * Real.exp (-o.rate * o.time_to_maturity)
            * normal_cdf (-(spec_d2 o.spot o.strike o.rate o.dividend_yield
                o.volatility o.time_to_maturity))
          - o.spot * Real.exp (-o.dividend_yield * o.time_to_maturity)
            * normal_cdf (-(spec_d1 o.spot o.strike o.rate o.dividend_yield
                o.volatility o.time_to_maturity)) ∧
      (black_scholes o).gamma = spec_gamma o.spot o.strike o.rate
        o.dividend_yield o.volatility o.time_to_maturity ∧
      (black_scholes o).vega = spec_vega o.spot o.strike o.rate
        o.dividend_yield o.volatility o.time_to_maturity := by
  obtain ⟨h1, h2, h3, h4⟩ := h
  have hd1 : (Real.log (o.spot / o.strike)
        + (o.rate - o.dividend_yield
            + 0.5 * o.volatility * o.volatility) * o.time_to_maturity)
        / (o.volatility * Real.sqrt o.time_to_maturity)
      = spec_d1 o.spot o.strike o.rate o.dividend_yield o.volatility
          o.time_to_maturity := by
    unfold spec_d1
    ring
  have hd2 : spec_d1 o.spot o.strike o.rate o.dividend_yield o.volatility
        o.time_to_maturity - o.volatility * Real.sqrt o.time_to_maturity
      = spec_d2 o.spot o.strike o.rate o.dividend_yield o.volatility
          o.time_to_maturity := rfl
  simp only [black_scholes, max_eq_left h1, max_eq_left h2, max_eq_left h3,
    max_eq_left h4, hc, Bool.false_eq_true, if_false, hd1, hd2]
  unfold spec_gamma spec_vega
  refine ⟨?_, ?_, ?_⟩ <;> simp only [normal_pdf_eq_spec_phi] <;>
    try ring

/-- The reference test option is clamped. -/
lemma clamped_opt1 : Clamped opt1 := by
  refine ⟨?_, ?_, ?_, ?_⟩ <;> norm_num [opt1]

/-- C3: for every clamped OptionSpec with the call flag set, black_scholes
returns exactly the closed-form call values of spec section 4.1: price,
delta, theta and rho built from d1, d2 and the CDF Phi(x) =
0.5 erfc(-x / sqrt 2). -/
theorem c3_call_closed_form (o : OptionInput) (h : Clamped o)
    (hc : o.is_call = true) :
    (black_scholes o).price = spec_call_price o.spot o.strike o.rate
        o.dividend_yield o.volatility o.time_to_maturity ∧
      (black_scholes o).delta = spec_call_delta o.spot o.strike o.rate
        o.dividend_yield o.volatility o.time_to_maturity ∧
      (black_scholes o).theta = spec_call_theta o.spot o.strike o.rate
        o.dividend_yield o.volatility o.time_to_maturity ∧
      (black_scholes o).rho = spec_call_rho o.spot o.strike o.rate
        o.dividend_yield o.volatility o.time_to_maturity := by
  obtain ⟨hp, hd, _, _, ht, hr⟩ := bs_call_fields o h hc
  exact ⟨hp, hd, ht, hr⟩

/-- Witness for C3 at the clamped reference call. -/
theorem c3_call_closed_form_witness :
    Clamped opt1 ∧ opt1.is_call = true ∧
      ((black_scholes opt1).price = spec_call_price opt1.spot opt1.strike
          opt1.rate opt1.dividend_yield opt1.volatility
          opt1.time_to_maturity ∧
        (black_scholes opt1).delta = spec_call_delta opt1.spot opt1.strike
          opt1.rate opt1.dividend_yield opt1.volatility
          opt1.time_to_maturity ∧
        (black_scholes opt1).theta = spec_call_theta opt1.spot opt1.strike
          opt1.rate opt1.dividend_yield opt1.volatility
          opt1.time_to_maturity ∧
        (black_scholes opt1).rho = spec_call_rho opt1.spot opt1.strike
          opt1.rate opt1.dividend_yield opt1.volatility
          opt1.time_to_maturity) :=
  ⟨clamped_opt1, rfl, c3_call_closed_form opt1 clamped_opt1 rfl⟩

/-- C6: put-call parity holds for every clamped OptionSpec, within the
1e-5 tolerance the spec names (the difference is in fact exactly zero). -/
theorem c6_put_call_parity (o : OptionInput) (h : Clamped o) :
    |(black_scholes { o with is_call := false }).price
        + o.spot * Real.exp (-o.dividend_yield * o.time_to_maturity)
        - o.strike * Real.exp (-o.rate * o.time_to_maturity)
        - (black_scholes { o with is_call := true }).price| < 1e-5 := by
  have hcall := (bs_call_fields { o with is_call := true } h rfl).1
  have hput := (bs_put_fields { o with is_call := false } h rfl).1
  dsimp only at hcall hput
  have e1 := normal_cdf_add_neg (spec_d1 o.spot o.strike o.rate
    o.dividend_yield o.volatility o.time_to_maturity)
  have e2 := normal_cdf_add_neg (spec_d2 o.spot o.strike o.rate
    o.dividend_yield o.volatility o.time_to_maturity)
  have e1b : normal_cdf (-(spec_d1 o.spot o.strike o.rate o.dividend_yield
        o.volatility o.time_to_maturity))
      = 1 - normal_cdf (spec_d1 o.spot o.strike o.rate o.dividend_yield
        o.volatility o.time_to_maturity) := by linarith
  have e2b : normal_cdf (-(spec_d2 o.spot o.strike o.rate o.dividend_yield
        o.volatility o.time_to_maturity))
      = 1 - normal_cdf (spec_d2 o.spot o.strike o.rate o.dividend_yield
        o.volatility o.time_to_maturity) := by linarith
  have hz : (black_scholes { o with is_call := false }).price
      + o.spot * Real.exp (-o.dividend_yield * o.time_to_maturity)
      - o.strike * Real.exp (-o.rate * o.time_to_maturity)
      - (black_scholes { o with is_call := true }).price = 0 := by
    rw [hcall, hput]
    unfold spec_call_price
    rw [spec_Phi_eq, e1b, e2b]
    ring
  rw [hz, abs_zero]
  norm_num

/-- Witness for C6 at the clamped reference option. -/
theorem c6_put_call_parity_witness :
    Clamped opt1 ∧
      |(black_scholes { opt1 with is_call := false }).price
          + opt1.spot * Real.exp (-opt1.dividend_yield
              * opt1.time_to_maturity)
          - opt1.strike * Real.exp (-opt1.rate * opt1.time_to_maturity)
          - (black_scholes { opt1 with is_call := true }).price| < 1e-5 :=
  ⟨clamped_opt1, c6_put_call_parity opt1 clamped_opt1⟩

/-- C7: for two clamped OptionSpecs identical except for the call/put
flag, black_scholes returns the same gamma and the same vega, and both
equal the branch-independent formulas of spec section 4.1 step 6. -/
theorem c7_gamma_vega_branch_independent (o : OptionInput)
    (h : Clamped o) :
    (black_scholes { o with is_call := true }).gamma
        = (black_scholes { o with is_call := false }).gamma ∧
      (black_scholes { o with is_call := true }).vega
        = (black_scholes { o with is_call := false }).vega ∧
      (black_scholes { o with is_call := true }).gamma
        = spec_gamma o.spot o.strike o.rate o.dividend_yield o.volatility
            o.time_to_maturity ∧
      (black_scholes { o with is_call := true }).vega
        = spec_vega o.spot o.strike o.rate o.dividend_yield o.volatility
            o.time_to_maturity := by
  obtain ⟨_, _, hg1, hv1, _, _⟩ :=
    bs_call_fields { o with is_call := true } h rfl
  obtain ⟨_, hg2, hv2⟩ := bs_put_fields { o with is_call := false } h rfl
  dsimp only at hg1 hv1 hg2 hv2
  exact ⟨hg1.trans hg2.symm, hv1.trans hv2.symm, hg1, hv1⟩

/-- Witness for C7 at the clamped reference option. -/
theorem c7_gamma_vega_branch_independent_witness :
    Clamped opt1 ∧
      ((black_scholes { opt1 with is_call := true }).gamma
          = (black_scholes { opt1 with is_call := false }).gamma ∧
        (black_scholes { opt1 with is_call := true }).vega
          = (black_scholes { opt1 with is_call := false }).vega ∧
        (black_scholes { opt1 with is_call := true }).gamma
          = spec_gamma opt1.spot opt1.strike opt1.rate opt1.dividend_yield
              opt1.volatility opt1.time_to_maturity ∧
        (black_scholes { opt1 with is_call := true }).vega
          = spec_vega opt1.spot opt1.strike opt1.rate opt1.dividend_yield
              opt1.volatility opt1.time_to_maturity) :=
  ⟨clamped_opt1, c7_gamma_vega_branch_independent opt1 clamped_opt1⟩

/-- A clamped call is worth at least minus the discounted strike. -/
lemma bs_price_ge_neg (o : OptionInput) (h : Clamped o)
    (hc : o.is_call = true) :
    -(o.strike * Real.exp (-o.rate * o.time_to_maturity))
      ≤ (black_scholes o).price := by
  have hp := (bs_call_fields o h hc).1
  rw [hp]
  unfold spec_call_price
  rw [spec_Phi_eq]
  have h1 := normal_cdf_nonneg (spec_d1 o.spot o.strike o.rate
    o.dividend_yield o.volatility o.time_to_maturity)
  have h2 := normal_cdf_le_one (spec_d2 o.spot o.strike o.rate
    o.dividend_yield o.volatility o.time_to_maturity)
  have hS : (0:ℝ) ≤ o.spot
      * Real.exp (-o.dividend_yield * o.time_to_maturity) :=
    mul_nonneg (le_trans (by norm_num) h.1) (Real.exp_pos _).le
  have hK : (0:ℝ) ≤ o.strike * Real.exp (-o.rate * o.time_to_maturity) :=
    mul_nonneg (le_trans (by norm_num) h.2.1) (Real.exp_pos _).le
  linarith [mul_nonneg hS h1, mul_le_of_le_one_right hK h2]

/-- The reference call, at any clamped volatility, is worth at least
-100. -/
lemma bs_price_lower_opt1 (v : ℝ) (hv : 1e-9 ≤ v) :
    (-100 : ℝ) ≤ (black_scholes { opt1 with volatility := v }).price := by
  have hcl : Clamped { opt1 with volatility := v } :=
    ⟨by norm_num [opt1], by norm_num [opt1], hv, by norm_num [opt1]⟩
  have h := bs_price_ge_neg _ hcl rfl
  have hK : ({ opt1 with volatility := v } : OptionInput).strike = 100 := by
    norm_num [opt1]
  rw [hK] at h
  have harg : -(({ opt1 with volatility := v } : OptionInput).rate)
      * ({ opt1 with volatility := v } : OptionInput).time_to_maturity
      = -0.01 := by
    norm_num [opt1]
  rw [harg] at h
  have hD : Real.exp (-0.01) ≤ 1 := by
    calc Real.exp (-0.01) ≤ Real.exp 0 := Real.exp_le_exp.mpr (by norm_num)
      _ = 1 := Real.exp_zero
  nlinarith [h, hD, Real.exp_pos (-0.01 : ℝ)]

/-- C2 counterexample: solving the reference call for the unreachable
target price -200 on the bracket [0, 1] with tolerance 1e-6 and
max_iterations = 1 exhausts the budget (converged = false) yet reports 2
iterations, not max_iterations = 1, which is also not the number of
iterations executed (1). -/
theorem c2_iteration_count_counterexample :
    (implied_volatility opt1 (-200) 0 1 (1e-6) 1).converged = false ∧
      (implied_volatility opt1 (-200) 0 1 (1e-6) 1).iterations = 2 := by
  have hlow := bs_price_lower_opt1 (0.5 * ((0:ℝ) + 1)) (by norm_num)
  have heq : implied_volatility opt1 (-200) 0 1 (1e-6) 1
      = iv_loop (fun v => (black_scholes { opt1 with volatility := v }).price)
          (-200) (1e-6) (0 + 1) 0 0 1 0 := rfl
  rw [heq]
  simp only [iv_loop]
  split_ifs with h1 h2 h3 h4
  · exfalso
    rw [abs_lt] at h1
    obtain ⟨h1a, h1b⟩ := h1
    linarith
  · exfalso
    rw [abs_lt] at h3
    norm_num at h3
  · exact ⟨rfl, rfl⟩
  · exfalso
    push_neg at h2
    linarith
  · exfalso
    push_neg at h2
    linarith

/-! ## The derivative of the normal CDF -/

/-- Continuity of the Gaussian integrand. -/
lemma gauss_continuous : Continuous fun t : ℝ => Real.exp (-t ^ 2) :=
  Real.continuous_exp.comp (continuous_pow 2).neg

/-- The upper Gaussian tail integral, as a function of its lower limit,
has derivative minus the integrand. -/
lemma hasDerivAt_gauss_Ioi (x : ℝ) :
    HasDerivAt (fun y => ∫ t in Ioi y, Real.exp (-t ^ 2))
      (-Real.exp (-x ^ 2)) x := by
  have hfun : (fun y => ∫ t in Ioi y, Real.exp (-t ^ 2))
      = fun y => (∫ t : ℝ, Real.exp (-t ^ 2))
          - ((∫ t in Iic (0:ℝ), Real.exp (-t ^ 2))
            + ∫ t in (0:ℝ)..y, Real.exp (-t ^ 2)) := by
    funext y
    have h1 : (∫ t in Iic y, Real.exp (-t ^ 2))
        + ∫ t in Ioi y, Real.exp (-t ^ 2) = ∫ t : ℝ, Real.exp (-t ^ 2) :=
      intervalIntegral.integral_Iic_add_Ioi gauss_integrable.integrableOn
        gauss_integrable.integrableOn
    have h2 : (∫ t in Iic y, Real.exp (-t ^ 2))
        - ∫ t in Iic (0:ℝ), Real.exp (-t ^ 2)
        = ∫ t in (0:ℝ)..y, Real.exp (-t ^ 2) :=
      intervalIntegral.integral_Iic_sub_Iic gauss_integrable.integrableOn
        gauss_integrable.integrableOn
    linarith
  rw [hfun]
  have hFTC : HasDerivAt (fun y => ∫ t in (0:ℝ)..y, Real.exp (-t ^ 2))
      (Real.exp (-x ^ 2)) x :=
    (gauss_continuous.integral_hasStrictDerivAt 0 x).hasDerivAt
  have h3 := (hasDerivAt_const x (∫ t : ℝ, Real.exp (-t ^ 2))).sub
    (hFTC.const_add (∫ t in Iic (0:ℝ), Real.exp (-t ^ 2)))
  simpa using h3

/-- erfc has derivative -(2/sqrt pi) exp(-x^2). -/
lemma hasDerivAt_erfc (x : ℝ) :
    HasDerivAt erfc (2 / Real.sqrt π * -Real.exp (-x ^ 2)) x :=
  (hasDerivAt_gauss_Ioi x).const_mul (2 / Real.sqrt π)

/-- The normal CDF has derivative the normal density. -/
lemma hasDerivAt_normal_cdf (x : ℝ) :
    HasDerivAt normal_cdf (normal_pdf x) x := by
  have hin : HasDerivAt (fun y : ℝ => -y / Real.sqrt 2)
      (-1 / Real.sqrt 2) x := by
    have h := ((hasDerivAt_id x).neg).div_const (Real.sqrt 2)
    simpa using h
  have hcomp := (hasDerivAt_erfc (-x / Real.sqrt 2)).comp x hin
  have h05 := hcomp.const_mul (0.5 : ℝ)
  have hval : (0.5 : ℝ)
      * (2 / Real.sqrt π * -Real.exp (-(-x / Real.sqrt 2) ^ 2)
        * (-1 / Real.sqrt 2)) = normal_pdf x := by
    have hsq : (-x / Real.sqrt 2) ^ 2 = x ^ 2 / 2 := by
      rw [div_pow, neg_sq, Real.sq_sqrt (by norm_num : (0:ℝ) ≤ 2)]
    rw [hsq, show -(x ^ 2 / 2) = -0.5 * x * x by ring]
    unfold normal_pdf
    rw [Real.sqrt_mul (by norm_num : (0:ℝ) ≤ 2) π]
    have h2 : Real.sqrt 2 ≠ 0 := by positivity
    have hpi : Real.sqrt π ≠ 0 := ne_of_gt sqrt_pi_pos
    field_simp
    ring
  rw [← hval]
  exact h05

/-! ## Vega as the volatility derivative of the call price -/

/-- The Black-Scholes density identity: the discounted strike weighted by
the density at d2 equals the deflated spot weighted by the density at
d1. -/
lemma pdf_identity (S K r q sigma T : ℝ) (hS : 0 < S) (hK : 0 < K)
    (hT : 0 < T) (hsig : sigma ≠ 0) :
    K * Real.exp (-r * T) * normal_pdf (spec_d2 S K r q sigma T)
      = S * Real.exp (-q * T) * normal_pdf (spec_d1 S K r q sigma T) := by
  have hsT : Real.sqrt T ≠ 0 := ne_of_gt (Real.sqrt_pos.mpr hT)
  have hsq : Real.sqrt T * Real.sqrt T = T := Real.mul_self_sqrt hT.le
  set d1 := spec_d1 S K r q sigma T with hd1def
  have hkey : d1 * (sigma * Real.sqrt T)
      = Real.log (S / K) + (r - q + 0.5 * sigma ^ 2) * T := by
    rw [hd1def]
    unfold spec_d1
    exact div_mul_cancel₀ _ (mul_ne_zero hsig hsT)
  have hd2 : spec_d2 S K r q sigma T = d1 - sigma * Real.sqrt T := rfl
  rw [hd2]
  unfold normal_pdf
  rw [show -0.5 * (d1 - sigma * Real.sqrt T) * (d1 - sigma * Real.sqrt T)
      = -0.5 * d1 * d1 + (Real.log (S / K) + (r - q) * T) from by
    linear_combination hkey - 0.5 * sigma ^ 2 * hsq]
  rw [Real.exp_add, Real.exp_add, Real.exp_log (div_pos hS hK)]
  have e1 : Real.exp (-r * T) = (Real.exp (r * T))⁻¹ := by
    rw [show -r * T = -(r * T) by ring, Real.exp_neg]
  have e2 : Real.exp ((r - q) * T)
      = Real.exp (r * T) * (Real.exp (q * T))⁻¹ := by
    rw [← Real.exp_neg, ← Real.exp_add]
    congr 1
    ring
  have e3 : Real.exp (-q * T) = (Real.exp (q * T))⁻¹ := by
    rw [show -q * T = -(q * T) by ring, Real.exp_neg]
  rw [e1, e2, e3]
  have hr := Real.exp_ne_zero (r * T)
  have hq := Real.exp_ne_zero (q * T)
  field_simp
  ring

/-- d1 is differentiable in the volatility, away from zero volatility. -/
lemma hasDerivAt_spec_d1 (S K r q T : ℝ) (hT : 0 < T) (sigma : ℝ)
    (hsig : 0 < sigma) :
    ∃ δ, HasDerivAt (fun v => spec_d1 S K r q v T) δ sigma := by
  have hsT : 0 < Real.sqrt T := Real.sqrt_pos.mpr hT
  have hden_ne : sigma * Real.sqrt T ≠ 0 := ne_of_gt (mul_pos hsig hsT)
  exact ⟨_, (((((hasDerivAt_pow 2 sigma).const_mul (0.5 : ℝ)).const_add
      (r - q)).mul_const T).const_add (Real.log (S / K))).div
    ((hasDerivAt_id sigma).mul_const (Real.sqrt T)) hden_ne⟩

/-- The call price of spec section 4.1, as a function of volatility, has
derivative vega at every positive volatility. -/
lemma hasDerivAt_call_in_vol (S K r q T : ℝ) (hS : 0 < S) (hK : 0 < K)
    (hT : 0 < T) (sigma : ℝ) (hsig : 0 < sigma) :
    HasDerivAt (fun v => spec_call_price S K r q v T)
      (spec_vega S K r q sigma T) sigma := by
  obtain ⟨δ, hd1⟩ := hasDerivAt_spec_d1 S K r q T hT sigma hsig
  have hden : HasDerivAt (fun v : ℝ => v * Real.sqrt T) (1 * Real.sqrt T)
      sigma := (hasDerivAt_id sigma).mul_const (Real.sqrt T)
  have hd2 : HasDerivAt (fun v => spec_d2 S K r q v T)
      (δ - 1 * Real.sqrt T) sigma := hd1.sub hden
  have hP1 : HasDerivAt (fun v => normal_cdf (spec_d1 S K r q v T))
      (normal_pdf (spec_d1 S K r q sigma T) * δ) sigma :=
    (hasDerivAt_normal_cdf (spec_d1 S K r q sigma T)).comp sigma hd1
  have hP2 : HasDerivAt (fun v => normal_cdf (spec_d2 S K r q v T))
      (normal_pdf (spec_d2 S K r q sigma T) * (δ - 1 * Real.sqrt T))
      sigma :=
    (hasDerivAt_normal_cdf (spec_d2 S K r q sigma T)).comp sigma hd2
  have hC : HasDerivAt (fun v =>
      S * Real.exp (-q * T) * normal_cdf (spec_d1 S K r q v T)
        - K * Real.exp (-r * T) * normal_cdf (spec_d2 S K r q v T))
      (S * Real.exp (-q * T)
          * (normal_pdf (spec_d1 S K r q sigma T) * δ)
        - K * Real.exp (-r * T)
          * (normal_pdf (spec_d2 S K r q sigma T)
            * (δ - 1 * Real.sqrt T))) sigma :=
    (hP1.const_mul (S * Real.exp (-q * T))).sub
      (hP2.const_mul (K * Real.exp (-r * T)))
  have hpdf := pdf_identity S K r q sigma T hS hK hT (ne_of_gt hsig)
  have hval : spec_vega S K r q sigma T
      = S * Real.exp (-q * T)
          * (normal_pdf (spec_d1 S K r q sigma T) * δ)
        - K * Real.exp (-r * T)
          * (normal_pdf (spec_d2 S K r q sigma T)
            * (δ - 1 * Real.sqrt T)) := by
    unfold spec_vega
    rw [← normal_pdf_eq_spec_phi]
    linear_combination (δ - Real.sqrt T) * hpdf
  have hfun : (fun v => spec_call_price S K r q v T)
      = fun v => S * Real.exp (-q * T) * normal_cdf (spec_d1 S K r q v T)
          - K * Real.exp (-r * T) * normal_cdf (spec_d2 S K r q v T) :=
    funext fun _ => rfl
  rw [hfun, hval]
  exact hC

/-- Vega is positive for positive spot and maturity. -/
lemma spec_vega_pos (S K r q sigma T : ℝ) (hS : 0 < S) (hT : 0 < T) :
    0 < spec_vega S K r q sigma T := by
  unfold spec_vega spec_phi
  have h1 : 0 < Real.exp (-q * T) := Real.exp_pos _
  have h2 : 0 < Real.exp (-(spec_d1 S K r q sigma T) ^ 2 / 2)
      / Real.sqrt (2 * π) := by positivity
  have h3 : 0 < Real.sqrt T := Real.sqrt_pos.mpr hT
  positivity

/-- The spec call price is strictly increasing in volatility on the
search interval of the solver. -/
lemma call_strictMonoOn (S K r q T : ℝ) (hS : 0 < S) (hK : 0 < K)
    (hT : 0 < T) :
    StrictMonoOn (fun v => spec_call_price S K r q v T)
      (Icc (1e-6 : ℝ) 5) := by
  apply strictMonoOn_of_deriv_pos (convex_Icc _ _)
  · intro x hx
    have hx0 : 0 < x := lt_of_lt_of_le (by norm_num) hx.1
    exact (hasDerivAt_call_in_vol S K r q T hS hK hT x
      hx0).continuousAt.continuousWithinAt
  · intro x hx
    rw [interior_Icc] at hx
    have hx0 : 0 < x := lt_trans (by norm_num) hx.1
    rw [(hasDerivAt_call_in_vol S K r q T hS hK hT x hx0).deriv]
    exact spec_vega_pos S K r q x T hS hT

/-- C8: for every clamped OptionSpec and volatilities sigma1 < sigma2
inside the solver search interval [1e-6, 5], the black_scholes price at
sigma1 is at most the price at sigma2 (the price increases with
volatility; vega is positive). -/
theorem c8_price_monotone_in_vol (o : OptionInput) (sigma1 sigma2 : ℝ)
    (h : Clamped o) (h1 : 1e-6 ≤ sigma1) (h12 : sigma1 < sigma2)
    (h2 : sigma2 ≤ 5) :
    (black_scholes { o with volatility := sigma1 }).price
      ≤ (black_scholes { o with volatility := sigma2 }).price := by
  have hS : 0 < o.spot := lt_of_lt_of_le (by norm_num) h.1
  have hK : 0 < o.strike := lt_of_lt_of_le (by norm_num) h.2.1
  have hT : 0 < o.time_to_maturity := lt_of_lt_of_le (by norm_num) h.2.2.2
  have hv1 : (1e-9:ℝ) ≤ sigma1 := le_trans (by norm_num) h1
  have hv2 : (1e-9:ℝ) ≤ sigma2 :=
    le_trans (by norm_num) (le_trans h1 h12.le)
  have hcl1 : Clamped { o with volatility := sigma1 } :=
    ⟨h.1, h.2.1, hv1, h.2.2.2⟩
  have hcl2 : Clamped { o with volatility := sigma2 } :=
    ⟨h.1, h.2.1, hv2, h.2.2.2⟩
  have hmem1 : sigma1 ∈ Icc (1e-6:ℝ) 5 := ⟨h1, le_trans h12.le h2⟩
  have hmem2 : sigma2 ∈ Icc (1e-6:ℝ) 5 := ⟨le_trans h1 h12.le, h2⟩
  have hm := call_strictMonoOn o.spot o.strike o.rate o.dividend_yield
    o.time_to_maturity hS hK hT hmem1 hmem2 h12
  simp only at hm
  rcases Bool.eq_false_or_eq_true o.is_call with hc | hc
  swap
  · have q1 := (bs_put_fields { o with volatility := sigma1 } hcl1 hc).1
    have q2 := (bs_put_fields { o with volatility := sigma2 } hcl2 hc).1
    dsimp only at q1 q2
    rw [q1, q2]
    unfold spec_call_price at hm
    rw [spec_Phi_eq] at hm
    have f1 := normal_cdf_add_neg (spec_d1 o.spot o.strike o.rate
      o.dividend_yield sigma1 o.time_to_maturity)
    have f2 := normal_cdf_add_neg (spec_d2 o.spot o.strike o.rate
      o.dividend_yield sigma1 o.time_to_maturity)
    have f3 := normal_cdf_add_neg (spec_d1 o.spot o.strike o.rate
      o.dividend_yield sigma2 o.time_to_maturity)
    have f4 := normal_cdf_add_neg (spec_d2 o.spot o.strike o.rate
      o.dividend_yield sigma2 o.time_to_maturity)
    have g1 : normal_cdf (-(spec_d1 o.spot o.strike o.rate
          o.dividend_yield sigma1 o.time_to_maturity))
        = 1 - normal_cdf (spec_d1 o.spot o.strike o.rate
          o.dividend_yield sigma1 o.time_to_maturity) := by linarith
    have g2 : normal_cdf (-(spec_d2 o.spot o.strike o.rate
          o.dividend_yield sigma1 o.time_to_maturity))
        = 1 - normal_cdf (spec_d2 o.spot o.strike o.rate
          o.dividend_yield sigma1 o.time_to_maturity) := by linarith
    have g3 : normal_cdf (-(spec_d1 o.spot o.strike o.rate
          o.dividend_yield sigma2 o.time_to_maturity))
        = 1 - normal_cdf (spec_d1 o.spot o.strike o.rate
          o.dividend_yield sigma2 o.time_to_maturity) := by linarith
    have g4 : normal_cdf (-(spec_d2 o.spot o.strike o.rate
          o.dividend_yield sigma2 o.time_to_maturity))
        = 1 - normal_cdf (spec_d2 o.spot o.strike o.rate
          o.dividend_yield sigma2 o.time_to_maturity) := by linarith
    rw [g1, g2, g3, g4]
    nlinarith [hm]
  · have p1 := (bs_call_fields { o with volatility := sigma1 } hcl1 hc).1
    have p2 := (bs_call_fields { o with volatility := sigma2 } hcl2 hc).1
    dsimp only at p1 p2
    rw [p1, p2]
    exact hm.le

/-- Witness for C8 at the clamped reference option and volatilities 0.2
and 0.3. -/
theorem c8_price_monotone_in_vol_witness :
    Clamped opt1 ∧ (1e-6:ℝ) ≤ 0.2 ∧ (0.2:ℝ) < 0.3 ∧ (0.3:ℝ) ≤ 5 ∧
      (black_scholes { opt1 with volatility := 0.2 }).price
        ≤ (black_scholes { opt1 with volatility := 0.3 }).price :=
  ⟨clamped_opt1, by norm_num, by norm_num, by norm_num,
    c8_price_monotone_in_vol opt1 0.2 0.3 clamped_opt1 (by norm_num)
      (by norm_num) (by norm_num)⟩
